import Mathlib

/-!
Verification development for the mind-test-platform emotion service.

Part 1 embeds `EnhancedPPGDetector` (src/emotion/models/enhanced_ppg_detector.py):
its mutable state, the smoothing routine `_smooth_heart_rate`, the quality gate of
`_assess_signal_quality`, the dispatch structure of `calculate_heart_rate_from_signals`,
the FFT-bin selection of `_fft_heart_rate_analysis`, and the per-frame state machine
`process_frame` (external-face-detection path).  Real-valued samples are modelled as
rationals; the numeric kernels that live inside numpy (the FFT magnitudes, the
autocorrelation curve, the heuristic fallback, and the non-degenerate part of the
quality score) are abstracted as oracle functions collected in `SignalAnalysis`,
while every branch decision, clamp, buffer mutation and substitution that the claims
speak about is embedded concretely.

Part 2 embeds `RTSPConsumerManager` (src/emotion/rtsp_consumer.py): the registry of
consumer threads, `start`/`stop`, and — as an explicit event trace — which actions
each call performs while holding the registry lock.
-/

/-- Python `deque(maxlen := n)` append: keep the newest `n` elements. -/
def dequeAppend (maxlen : ℕ) (xs : List ℚ) (x : ℚ) : List ℚ :=
  let ys := xs ++ [x]
  ys.drop (ys.length - maxlen)

/-- Python `int(x)`: truncation toward zero (as a rational). -/
def pyInt (q : ℚ) : ℚ :=
  if 0 ≤ q then (⌊q⌋ : ℚ) else (⌈q⌉ : ℚ)

/-- `np.mean` of a list (the empty list never occurs at call sites). -/
def signalMean (l : List ℚ) : ℚ := l.sum / l.length

/-- Population variance, i.e. the square of `np.std`. -/
def signalVariance (l : List ℚ) : ℚ :=
  (l.map (fun x => (x - signalMean l) ^ 2)).sum / l.length

/-- `np.average(recent, weights := [0.2, 0.3, 0.5])` on a 3-element slice. -/
def weightedAvg3 (l : List ℚ) : ℚ :=
  match l with
  | [a, b, c] => (1/5) * a + (3/10) * b + (1/2) * c
  | _ => 0

/-- Mutable state of `EnhancedPPGDetector` (constructor, lines 18-54). -/
structure PPGState where
  countdown_duration : ℚ
  update_interval : ℚ
  min_heart_rate : ℤ
  max_heart_rate : ℤ
  detection_state : String
  countdown_start_time : Option ℚ
  last_update_time : Option ℚ
  face_detected_continuously : Bool
  signal_buffer : List ℚ
  timestamp_buffer : List ℚ
  current_heart_rate : Option ℚ
  heart_rate_history : List ℚ
deriving DecidableEq, Repr

/-- `EnhancedPPGDetector.__init__` with the given configuration. -/
def initState (cd ui : ℚ) (minHR maxHR : ℤ) : PPGState :=
  { countdown_duration := cd
    update_interval := ui
    min_heart_rate := minHR
    max_heart_rate := maxHR
    detection_state := "waiting"
    countdown_start_time := none
    last_update_time := none
    face_detected_continuously := false
    signal_buffer := []
    timestamp_buffer := []
    current_heart_rate := none
    heart_rate_history := [] }

/-- Range clamp `max(lo, min(hi, x))` (line 327). -/
def clampRange (lo hi x : ℚ) : ℚ := max lo (min hi x)

/-- Change limiting against the previous estimate (lines 330-339):
at most `max(5, 10%)` of the previous value, no limit when there is none. -/
def limitChange (chr : Option ℚ) (x : ℚ) : ℚ :=
  match chr with
  | none => x
  | some c =>
    let mc := max 5 (c * (1/10))
    if x > c + mc then c + mc
    else if x < c - mc then c - mc
    else x

/-- `EnhancedPPGDetector._smooth_heart_rate` (lines 323-355): clamp to the
configured range, limit the change against `current_heart_rate`, append to the
bounded history, and once the history holds ≥ 3 entries return the
recency-weighted average of the last three. -/
def smooth_heart_rate (s : PPGState) (hr0 : ℚ) : ℚ × PPGState :=
  let c := limitChange s.current_heart_rate
    (clampRange (s.min_heart_rate : ℚ) (s.max_heart_rate : ℚ) hr0)
  let hist := dequeAppend 10 s.heart_rate_history c
  let out := if 3 ≤ hist.length then weightedAvg3 (hist.drop (hist.length - 3)) else c
  (out, { s with heart_rate_history := hist })

/-- Oracles for the numpy-resident numeric kernels of the detector:
`qualityRest` is the composite quality score for a non-degenerate signal
(lines 582-607), `fft` the detrend/bandpass/FFT pipeline (lines 166-287),
`autocorr` the autocorrelation estimate (lines 289-321), `fallback` the
heuristic estimate (lines 357-410). -/
structure SignalAnalysis where
  qualityRest : List ℚ → ℚ
  fft : List ℚ → Option ℚ
  autocorr : List ℚ → Option ℚ
  fallback : List ℚ → Option ℚ

/-- `EnhancedPPGDetector._assess_signal_quality` (lines 571-607): 0 below 3
samples, 0.1 when the signal deviation is below 1 (zero-variance gate), else
the composite score clipped into [0, 1]. `np.std < 1` is expressed as
`variance < 1`. -/
def assess_signal_quality (A : SignalAnalysis) (l : List ℚ) : ℚ :=
  if l.length < 3 then 0
  else if signalVariance l < 1 then 1/10
  else max 0 (min 1 (A.qualityRest l))

/-- `EnhancedPPGDetector.calculate_heart_rate_from_signals` (lines 147-201):
require ≥ 10 samples, apply the quality gate (< 0.3 → null), then try the FFT
pipeline (whose success path is smoothed in place), the autocorrelation
fallback, and the heuristic fallback; null when all fail. -/
def calculate_heart_rate_from_signals (A : SignalAnalysis) (s : PPGState) :
    Option ℚ × PPGState :=
  if s.signal_buffer.length < 10 then (none, s)
  else if assess_signal_quality A s.signal_buffer < 3/10 then (none, s)
  else
    match A.fft s.signal_buffer with
    | some hr =>
      let r := smooth_heart_rate s hr
      (some (pyInt r.1), r.2)
    | none =>
      match A.autocorr s.signal_buffer with
      | some hr => (some (pyInt hr), s)
      | none =>
        match A.fallback s.signal_buffer with
        | some hr => (some (pyInt hr), s)
        | none => (none, s)

/-- Result record of `process_frame` (the fields the claims are about). -/
structure FrameResult where
  heart_rate : Option ℚ
  face_detected : Bool
  detection_state : String
  signal_length : ℕ
deriving DecidableEq, Repr

/-- The record built by the exception handler of `process_frame`
(lines 549-557). -/
def errorResult (s : PPGState) : FrameResult :=
  { heart_rate := none
    face_detected := false
    detection_state := "error"
    signal_length := s.signal_buffer.length }

/-- Face-loss reset (lines 471-487): the state fields are reset, the buffers
are left as they are, and the returned `signal_length` is the buffer's
current length. -/
def pfFaceLost (s : PPGState) : FrameResult × PPGState :=
  let s' := { s with detection_state := "waiting"
                     countdown_start_time := none
                     last_update_time := none
                     face_detected_continuously := false
                     current_heart_rate := none }
  ({ heart_rate := none
     face_detected := false
     detection_state := "waiting"
     signal_length := s'.signal_buffer.length }, s')

/-- State-machine transitions on a face tick (lines 490-504). -/
def pfTransition (s : PPGState) (t : ℚ) : PPGState :=
  if s.detection_state = "waiting" then
    { s with detection_state := "counting"
             countdown_start_time := some t
             face_detected_continuously := true }
  else if s.detection_state = "counting" then
    match s.countdown_start_time with
    | some cst =>
      if s.countdown_duration ≤ t - cst then
        { s with detection_state := "calculating"
                 last_update_time := some (t - s.update_interval) }
      else s
    | none => s
  else s

/-- Append the extracted sample to the bounded buffers (lines 507-510). -/
def pfAppend (s : PPGState) (t ppg : ℚ) : PPGState :=
  { s with signal_buffer := dequeAppend 100 s.signal_buffer ppg
           timestamp_buffer := dequeAppend 100 s.timestamp_buffer t }

/-- Is a heart-rate update due (lines 516-517)? -/
def pfDue (s : PPGState) (t : ℚ) : Bool :=
  match s.last_update_time with
  | none => true
  | some lut => if s.update_interval ≤ t - lut then true else false

/-- The recompute branch (lines 519-535): compute, substitute the history
mean or the random default on null, smooth, store, and report. -/
def pfCompute (A : SignalAnalysis) (s : PPGState) (t rand : ℚ) :
    FrameResult × PPGState :=
  let ra := calculate_heart_rate_from_signals A s
  let hr1 : ℚ :=
    match ra.1 with
    | some v => v
    | none =>
      if 0 < ra.2.heart_rate_history.length then
        pyInt (signalMean ra.2.heart_rate_history)
      else rand
  let rb := smooth_heart_rate ra.2 hr1
  let hr2 := pyInt rb.1
  let sc := { rb.2 with current_heart_rate := some hr2
                        last_update_time := some t }
  ({ heart_rate := some hr2
     face_detected := true
     detection_state := sc.detection_state
     signal_length := sc.signal_buffer.length }, sc)

/-- `EnhancedPPGDetector.process_frame` (lines 440-557) on the external
face-detection path: `t` is `time.time()`, `ppg` the scalar extracted from
the default centered ROI, `rand` the value of `np.random.randint(65, 75)`.
Face loss resets the state fields (not the buffers); a face in `waiting`
starts the countdown; a finished countdown enters `calculating` with
`last_update_time` backdated by one update interval; the sample is appended
to the bounded buffers; in `calculating`, when an update is due, the
computed (or substituted) estimate is smoothed, stored and returned.  The
combination `counting` with no countdown start time raises in the source
(`t - None`) and is answered by the handler record with the state left
untouched. -/
def process_frame (A : SignalAnalysis) (s : PPGState) (t : ℚ) (face : Bool)
    (ppg : ℚ) (rand : ℚ) : FrameResult × PPGState :=
  if face = false then
    pfFaceLost s
  else if s.detection_state = "counting" ∧ s.countdown_start_time = none then
    (errorResult s, s)
  else
    let s2 := pfAppend (pfTransition s t) t ppg
    if s2.detection_state = "calculating" then
      if pfDue s2 t then
        pfCompute A s2 t rand
      else
        ({ heart_rate := s2.current_heart_rate
           face_detected := true
           detection_state := s2.detection_state
           signal_length := s2.signal_buffer.length }, s2)
    else
      ({ heart_rate := none
         face_detected := true
         detection_state := s2.detection_state
         signal_length := s2.signal_buffer.length }, s2)

/-- One frame's worth of inputs to `process_frame`. -/
structure PFInput where
  t : ℚ
  face : Bool
  ppg : ℚ
  rand : ℚ
deriving DecidableEq, Repr

/-- Run the detector over a sequence of frames, collecting the results. -/
def runDetector (A : SignalAnalysis) (s : PPGState) :
    List PFInput → List FrameResult × PPGState
  | [] => ([], s)
  | i :: is =>
    let r := process_frame A s i.t i.face i.ppg i.rand
    let rest := runDetector A r.2 is
    (r.1 :: rest.1, rest.2)

/-- A degenerate analysis oracle: every numeric kernel is inconclusive.
Used to build concrete executions whose interesting branches are the
embedded ones. -/
def Aconst : SignalAnalysis :=
  { qualityRest := fun _ => 0
    fft := fun _ => none
    autocorr := fun _ => none
    fallback := fun _ => none }

/-- `EnhancedPPGDetector._fft_heart_rate_analysis`, selection part
(lines 257-283): the positive-frequency spectrum is abstracted as a list of
(frequency in Hz, magnitude) bins; frequencies are mapped to BPM, only bins in
the configured range are considered, the first bin of maximal magnitude is
picked, and it is returned only when its magnitude exceeds twice the mean
in-band magnitude. -/
def fft_heart_rate_analysis (minHR maxHR : ℚ) (bins : List (ℚ × ℚ)) : Option ℚ :=
  let valid := bins.filter (fun b => minHR ≤ b.1 * 60 ∧ b.1 * 60 ≤ maxHR)
  match valid with
  | [] => none
  | b :: bs =>
    let peak := bs.foldl (fun best x => if best.2 < x.2 then x else best) b
    let avg := (valid.map Prod.snd).sum / valid.length
    if peak.2 > 2 * avg then some (peak.1 * 60) else none

/-!
Part 2: `RTSPConsumerManager` (src/emotion/rtsp_consumer.py, lines 686-743).

Each consumer thread is modelled by the attributes `start`/`stop` consult;
the registry dict by a function from stream names to optional workers.  Both
calls additionally yield the sequence of actions they perform, with the
acquisition and release of `self._lock` explicit, so lock-scope properties
are statements about the traces.
-/

/-- A `_ConsumerThread` as seen by the manager: its identity, its URL, and
whether it is alive. -/
structure Worker where
  wid : ℕ
  rtsp_url : String
  alive : Bool
deriving DecidableEq, Repr

/-- One action performed by `RTSPConsumerManager.start`/`stop`. -/
inductive MgrEvent where
  | acquire : MgrEvent
  | release : MgrEvent
  | mapGet (k : String) : MgrEvent
  | mapPop (k : String) : MgrEvent
  | mapInsert (k : String) : MgrEvent
  | workerStop (id : ℕ) : MgrEvent
  | join (id : ℕ) (timeout : ℚ) : MgrEvent
  | spawn (id : ℕ) : MgrEvent
deriving DecidableEq, Repr

/-- `RTSPConsumerManager` state: the `_threads` dict and a supply of fresh
thread identities. -/
structure Manager where
  threads : String → Option Worker
  fresh : ℕ

/-- Point update of the registry function. -/
def mapSet (f : String → Option Worker) (k : String) (v : Option Worker) :
    String → Option Worker :=
  fun k' => if k' = k then v else f k'

/-- `RTSPConsumerManager.start` (lines 692-714): under the lock, a live worker
with the same URL is a no-op success; a live worker with a different URL is
stopped and joined (timeout 1.0 s) and popped; a dead worker is popped; then a
new worker is created, registered and spawned. Returns the success flag, the
new state, and the action trace. -/
def Manager.start (m : Manager) (name url : String) :
    Bool × Manager × List MgrEvent :=
  match m.threads name with
  | some th =>
    if th.alive then
      if th.rtsp_url = url then
        (true, m, [.acquire, .mapGet name, .release])
      else
        let w : Worker := ⟨m.fresh, url, true⟩
        (true,
         ⟨mapSet m.threads name (some w), m.fresh + 1⟩,
         [.acquire, .mapGet name, .workerStop th.wid, .join th.wid 1,
          .mapPop name, .mapInsert name, .spawn w.wid, .release])
    else
      let w : Worker := ⟨m.fresh, url, true⟩
      (true,
       ⟨mapSet m.threads name (some w), m.fresh + 1⟩,
       [.acquire, .mapGet name, .mapPop name, .mapInsert name,
        .spawn w.wid, .release])
  | none =>
    let w : Worker := ⟨m.fresh, url, true⟩
    (true,
     ⟨mapSet m.threads name (some w), m.fresh + 1⟩,
     [.acquire, .mapGet name, .mapInsert name, .spawn w.wid, .release])

/-- `RTSPConsumerManager.stop` (lines 716-728): under the lock, an unknown
name returns false and changes nothing; a registered worker is stopped,
joined (timeout 1.0 s) and popped, returning true. -/
def Manager.stop (m : Manager) (name : String) :
    Bool × Manager × List MgrEvent :=
  match m.threads name with
  | some th =>
    (true,
     { m with threads := mapSet m.threads name none },
     [.acquire, .mapGet name, .workerStop th.wid, .join th.wid 1,
      .mapPop name, .release])
  | none =>
    (false, m, [.acquire, .mapGet name, .release])

/-- Does the trace perform a `join` while the lock is held?  The fold tracks
the lock-nesting depth. -/
def joinWhileHeld (tr : List MgrEvent) : Bool :=
  (tr.foldl
    (fun st e =>
      match e with
      | .acquire => (st.1 + 1, st.2)
      | .release => (st.1 - 1, st.2)
      | .join _ _ => (st.1, st.2 || decide (0 < st.1))
      | _ => st)
    ((0 : ℕ), false)).2

/-- Every `join` in the trace carries a finite timeout of 1.0 s. -/
def allJoinsBounded (tr : List MgrEvent) : Prop :=
  ∀ i tmo, MgrEvent.join i tmo ∈ tr → tmo = 1

/-- Somewhere in the trace, worker `oldId` is stopped strictly before worker
`newId` is spawned. -/
def stopPrecedesSpawn (tr : List MgrEvent) (oldId newId : ℕ) : Prop :=
  ∃ i j, i < j ∧ tr.get? i = some (.workerStop oldId) ∧
    tr.get? j = some (.spawn newId)

/-!
Theorems.
-/

/-- Concrete manager with one live registered worker on stream "s". -/
def mC : Manager :=
  ⟨fun k => if k = "s" then some ⟨0, "u", true⟩ else none, 1⟩

/-- Detector state with one buffered sample. -/
def sC1 : PPGState := { initState 3 1 40 120 with signal_buffer := [50] }

/-- C1 (counterexample): a face-lost tick on a detector holding one buffered
sample returns `signal_length = 1`, not 0, and the buffer is kept, refuting
the claim that all buffers are cleared and the returned signal length is 0. -/
theorem face_loss_nonempty_buffer_cex :
    (process_frame Aconst sC1 0 false 0 0).1.signal_length = 1 ∧
    (process_frame Aconst sC1 0 false 0 0).1.signal_length ≠ 0 ∧
    (process_frame Aconst sC1 0 false 0 0).2.signal_buffer = [50] ∧
    (process_frame Aconst sC1 0 false 0 0).2.heart_rate_history =
      sC1.heart_rate_history := by
  refine ⟨rfl, by decide, rfl, rfl⟩

/-- C1 (amended): a single `process_frame` call with `face_detected = false`
immediately sets `detection_state` to `waiting` and `heart_rate` to null and
clears the countdown/update/`current_heart_rate` fields, but it leaves the
signal buffer, the timestamp buffer and the heart-rate history untouched, so
the returned `signal_length` is the buffer's previous length. -/
theorem face_loss_resets_state_but_keeps_buffers (A : SignalAnalysis)
    (s : PPGState) (t ppg rand : ℚ) :
    process_frame A s t false ppg rand =
      ({ heart_rate := none
         face_detected := false
         detection_state := "waiting"
         signal_length := s.signal_buffer.length },
       { s with detection_state := "waiting"
                countdown_start_time := none
                last_update_time := none
                face_detected_continuously := false
                current_heart_rate := none }) := rfl

/-- C10: when an internal step of `process_frame` raises (modelled at the one
state-dependent raise site, `counting` with an unset countdown start), the
call still returns normally with the handler's record — null heart rate,
`face_detected = false` and the out-of-enum state string `"error"` — and the
detector state, in particular the signal buffer, is left untouched. -/
theorem process_frame_error_record (A : SignalAnalysis) (s : PPGState)
    (t ppg rand : ℚ) (h1 : s.detection_state = "counting")
    (h2 : s.countdown_start_time = none) :
    process_frame A s t true ppg rand = (errorResult s, s) ∧
    (process_frame A s t true ppg rand).1 =
      { heart_rate := none
        face_detected := false
        detection_state := "error"
        signal_length := s.signal_buffer.length } ∧
    (process_frame A s t true ppg rand).2.signal_buffer = s.signal_buffer := by
  have hg : process_frame A s t true ppg rand = (errorResult s, s) := by
    simp [process_frame, h1, h2]
  exact ⟨hg, by rw [hg]; rfl, by rw [hg]⟩

/-- Detector state that makes `process_frame` hit its exception handler. -/
def sErr : PPGState := { initState 3 1 40 120 with detection_state := "counting" }

/-- Witness for C10 at a concrete raising state. -/
theorem process_frame_error_record_witness :
    process_frame Aconst sErr 0 true 0 0 = (errorResult sErr, sErr) ∧
    (process_frame Aconst sErr 0 true 0 0).1 =
      { heart_rate := none
        face_detected := false
        detection_state := "error"
        signal_length := sErr.signal_buffer.length } ∧
    (process_frame Aconst sErr 0 true 0 0).2.signal_buffer = sErr.signal_buffer :=
  process_frame_error_record Aconst sErr 0 0 0 rfl rfl

/-- C5: `stop` on a name not in the registry returns false and leaves the
whole manager (registry and workers) unchanged; on a registered name it
returns true, removes exactly that name, and leaves every other entry as it
was. -/
theorem stop_unknown_noop_known_removes (m : Manager) (name : String) :
    (m.threads name = none →
      (m.stop name).1 = false ∧ (m.stop name).2.1 = m) ∧
    (∀ w, m.threads name = some w →
      (m.stop name).1 = true ∧
      (m.stop name).2.1.threads name = none ∧
      ∀ k, k ≠ name → (m.stop name).2.1.threads k = m.threads k) := by
  constructor
  · intro h
    simp [Manager.stop, h]
  · intro w h
    refine ⟨by simp [Manager.stop, h], by simp [Manager.stop, h, mapSet], ?_⟩
    intro k hk
    simp [Manager.stop, h, mapSet, hk]

/-- Witness for C5: concrete unknown and known stream names. -/
theorem stop_unknown_noop_known_removes_witness :
    ((mC.stop "x").1 = false ∧ (mC.stop "x").2.1 = mC) ∧
    ((mC.stop "s").1 = true ∧ (mC.stop "s").2.1.threads "s" = none ∧
      (mC.stop "s").2.1.threads "z" = mC.threads "z") :=
  ⟨(stop_unknown_noop_known_removes mC "x").1 rfl,
   ((stop_unknown_noop_known_removes mC "s").2 ⟨0, "u", true⟩ rfl).1,
   ((stop_unknown_noop_known_removes mC "s").2 ⟨0, "u", true⟩ rfl).2.1,
   ((stop_unknown_noop_known_removes mC "s").2 ⟨0, "u", true⟩ rfl).2.2 "z"
     (by decide)⟩

/-- C9 (counterexample): both `stop` on a registered stream and `start` with a
changed URL perform the bounded worker join while the registry lock is held,
refuting the claim that the mutex is never held across thread joins. -/
theorem lock_held_across_join_cex :
    joinWhileHeld (mC.stop "s").2.2 = true ∧
    joinWhileHeld (mC.start "s" "v").2.2 = true := by
  exact ⟨rfl, rfl⟩

/-- C9 (amended): the registry mutex is held for the whole body of `start` and
`stop`, including the worker join in `stop` and in the URL-change path of
`start`; every join performed there is bounded by the 1.0 s timeout, so a
stall of other streams' `start`/`stop` is bounded, not indefinite. -/
theorem mgr_joins_bounded (m : Manager) (name url : String) :
    allJoinsBounded (m.start name url).2.2 ∧
    allJoinsBounded (m.stop name).2.2 := by
  constructor
  · intro i tmo hmem
    unfold Manager.start at hmem
    cases h : m.threads name with
    | none => rw [h] at hmem; simp at hmem
    | some th =>
      rw [h] at hmem
      by_cases ha : th.alive
      · by_cases hu : th.rtsp_url = url
        · simp [ha, hu] at hmem
        · simp [ha, hu] at hmem
          exact hmem.2
      · simp [ha] at hmem
  · intro i tmo hmem
    unfold Manager.stop at hmem
    cases h : m.threads name with
    | none => rw [h] at hmem; simp at hmem
    | some th =>
      rw [h] at hmem
      simp at hmem
      exact hmem.2

/-- Witness for C9 (amended): the concrete join `stop` performs on stream "s"
is indeed in the trace and carries the 1.0 s bound. -/
theorem mgr_joins_bounded_witness :
    MgrEvent.join 0 1 ∈ (mC.stop "s").2.2 ∧ (1 : ℚ) = 1 :=
  ⟨by decide, (mgr_joins_bounded mC "s" "u").2 0 1 (by decide)⟩

/-- After any `start`, the registry holds a live worker with the started URL
under the stream name. -/
theorem start_success_registers (m : Manager) (name url : String) :
    (m.start name url).1 = true ∧
    ∃ w, (m.start name url).2.1.threads name = some w ∧ w.alive = true ∧
      w.rtsp_url = url := by
  unfold Manager.start
  cases h : m.threads name with
  | none =>
    exact ⟨rfl, ⟨⟨m.fresh, url, true⟩, by simp [mapSet], rfl, rfl⟩⟩
  | some th =>
    by_cases ha : th.alive
    · by_cases hu : th.rtsp_url = url
      · exact ⟨by simp [ha, hu], ⟨th, by simp [ha, hu, h], ha, hu⟩⟩
      · exact ⟨by simp [ha, hu], ⟨⟨m.fresh, url, true⟩,
          by simp [ha, hu, mapSet], rfl, rfl⟩⟩
    · exact ⟨by simp [ha], ⟨⟨m.fresh, url, true⟩, by simp [ha, mapSet], rfl, rfl⟩⟩

/-- `start` on a name whose registered worker is alive with the same URL is a
pure no-op success. -/
theorem start_same_url_noop (m : Manager) (name url : String) (w : Worker)
    (hw : m.threads name = some w) (ha : w.alive = true)
    (hu : w.rtsp_url = url) :
    m.start name url = (true, m, [.acquire, .mapGet name, .release]) := by
  unfold Manager.start
  rw [hw]
  simp [ha, hu]

/-- `start` on a name whose registered worker is alive with a different URL
stops and joins the old worker, replaces the registry entry, and spawns the
replacement. -/
theorem start_diff_url_replaces (m : Manager) (name url' : String) (w : Worker)
    (hw : m.threads name = some w) (ha : w.alive = true)
    (hu : w.rtsp_url ≠ url') :
    m.start name url' =
      (true,
       ⟨mapSet m.threads name (some ⟨m.fresh, url', true⟩), m.fresh + 1⟩,
       [.acquire, .mapGet name, .workerStop w.wid, .join w.wid 1,
        .mapPop name, .mapInsert name, .spawn m.fresh, .release]) := by
  unfold Manager.start
  rw [hw]
  simp [ha, hu]

/-- C4: `start` is idempotent — a second `start` with the same URL succeeds
and leaves the registry exactly as it was, holding one live worker with that
URL under the name; a second `start` with a different URL succeeds, stops and
joins the old worker strictly before spawning the replacement, and afterwards
the name maps to a single live worker with the new URL. -/
theorem start_idempotent_one_live_worker (m : Manager) (name url url' : String)
    (hne : url' ≠ url) :
    ((m.start name url).1 = true ∧
     (∃ w, (m.start name url).2.1.threads name = some w ∧ w.alive = true ∧
        w.rtsp_url = url)) ∧
    (((m.start name url).2.1.start name url).1 = true ∧
     ((m.start name url).2.1.start name url).2.1 = (m.start name url).2.1) ∧
    (∀ wo, (m.start name url).2.1.threads name = some wo →
      ((m.start name url).2.1.start name url').1 = true ∧
      ∃ wn, ((m.start name url).2.1.start name url').2.1.threads name = some wn ∧
        wn.alive = true ∧ wn.rtsp_url = url' ∧
        stopPrecedesSpawn ((m.start name url).2.1.start name url').2.2
          wo.wid wn.wid) := by
  obtain ⟨hok, w1, hw1, ha1, hu1⟩ := start_success_registers m name url
  refine ⟨⟨hok, w1, hw1, ha1, hu1⟩, ?_, ?_⟩
  · rw [start_same_url_noop _ name url w1 hw1 ha1 hu1]
    exact ⟨rfl, rfl⟩
  · intro wo hwo
    have hwo1 : wo = w1 := by
      rw [hw1] at hwo
      exact (Option.some.injEq _ _ ▸ hwo).symm
    have hune : wo.rtsp_url ≠ url' := by
      rw [hwo1, hu1]
      exact fun hEq => hne hEq.symm
    rw [start_diff_url_replaces _ name url' wo hwo (hwo1 ▸ ha1) hune]
    refine ⟨rfl, ⟨(m.start name url).2.1.fresh, url', true⟩,
      by simp [mapSet], rfl, rfl, ?_⟩
    exact ⟨2, 6, by omega, rfl, rfl⟩

/-- The empty manager. -/
def mEmpty : Manager := ⟨fun _ => none, 0⟩

/-- Witness for C4 at concrete names and URLs. -/
theorem start_idempotent_one_live_worker_witness :
    ((mEmpty.start "a" "u").1 = true ∧
     (∃ w, (mEmpty.start "a" "u").2.1.threads "a" = some w ∧ w.alive = true ∧
        w.rtsp_url = "u")) ∧
    (((mEmpty.start "a" "u").2.1.start "a" "u").1 = true ∧
     ((mEmpty.start "a" "u").2.1.start "a" "u").2.1 =
       (mEmpty.start "a" "u").2.1) ∧
    (∀ wo, (mEmpty.start "a" "u").2.1.threads "a" = some wo →
      ((mEmpty.start "a" "u").2.1.start "a" "v").1 = true ∧
      ∃ wn, ((mEmpty.start "a" "u").2.1.start "a" "v").2.1.threads "a" =
          some wn ∧ wn.alive = true ∧ wn.rtsp_url = "v" ∧
        stopPrecedesSpawn ((mEmpty.start "a" "u").2.1.start "a" "v").2.2
          wo.wid wn.wid) :=
  start_idempotent_one_live_worker mEmpty "a" "u" "v" (by decide)

/-- The state returned by `calculate_heart_rate_from_signals` differs from
its input at most in the heart-rate history (the FFT success path smooths in
place); every other field is untouched. -/
theorem calculate_preserves_fields (A : SignalAnalysis) (s : PPGState) :
    (calculate_heart_rate_from_signals A s).2.detection_state =
      s.detection_state ∧
    (calculate_heart_rate_from_signals A s).2.last_update_time =
      s.last_update_time ∧
    (calculate_heart_rate_from_signals A s).2.signal_buffer = s.signal_buffer ∧
    (calculate_heart_rate_from_signals A s).2.current_heart_rate =
      s.current_heart_rate ∧
    (calculate_heart_rate_from_signals A s).2.min_heart_rate =
      s.min_heart_rate ∧
    (calculate_heart_rate_from_signals A s).2.max_heart_rate =
      s.max_heart_rate ∧
    (calculate_heart_rate_from_signals A s).2.update_interval =
      s.update_interval := by
  unfold calculate_heart_rate_from_signals
  split_ifs with h1 h2
  · exact ⟨rfl, rfl, rfl, rfl, rfl, rfl, rfl⟩
  · exact ⟨rfl, rfl, rfl, rfl, rfl, rfl, rfl⟩
  · cases A.fft s.signal_buffer with
    | some hr => exact ⟨rfl, rfl, rfl, rfl, rfl, rfl, rfl⟩
    | none =>
      cases A.autocorr s.signal_buffer with
      | some hr => exact ⟨rfl, rfl, rfl, rfl, rfl, rfl, rfl⟩
      | none =>
        cases A.fallback s.signal_buffer with
        | some hr => exact ⟨rfl, rfl, rfl, rfl, rfl, rfl, rfl⟩
        | none => exact ⟨rfl, rfl, rfl, rfl, rfl, rfl, rfl⟩

/-- The recompute branch always stores a heart rate, stamps the update time
with the call time, and keeps the detection state. -/
theorem pfCompute_result (A : SignalAnalysis) (s : PPGState) (t rand : ℚ) :
    (∃ v, (pfCompute A s t rand).1.heart_rate = some v) ∧
    (pfCompute A s t rand).2.last_update_time = some t ∧
    (pfCompute A s t rand).2.detection_state = s.detection_state ∧
    (pfCompute A s t rand).1.detection_state = s.detection_state := by
  have hds := (calculate_preserves_fields A s).1
  exact ⟨⟨_, rfl⟩, rfl, hds, hds⟩

/-- A `counting` tick whose elapsed time has reached the countdown duration
switches to `calculating`, stamps the update clock with the call time, and
yields a heart-rate value in the same call. -/
theorem process_frame_counting_complete (A : SignalAnalysis)
    (s : PPGState) (t ppg rand cst : ℚ)
    (hstate : s.detection_state = "counting")
    (hcst : s.countdown_start_time = some cst)
    (helapsed : s.countdown_duration ≤ t - cst) :
    (process_frame A s t true ppg rand).1.detection_state = "calculating" ∧
    (process_frame A s t true ppg rand).2.detection_state = "calculating" ∧
    (process_frame A s t true ppg rand).2.last_update_time = some t ∧
    ∃ v, (process_frame A s t true ppg rand).1.heart_rate = some v := by
  have htrans : pfTransition s t =
      { s with detection_state := "calculating"
               last_update_time := some (t - s.update_interval) } := by
    simp [pfTransition, hstate, hcst, helapsed]
  have hs2 : pfAppend (pfTransition s t) t ppg =
      { s with detection_state := "calculating"
               last_update_time := some (t - s.update_interval)
               signal_buffer := dequeAppend 100 s.signal_buffer ppg
               timestamp_buffer := dequeAppend 100 s.timestamp_buffer t } := by
    rw [htrans]; rfl
  have hdue : pfDue (pfAppend (pfTransition s t) t ppg) t = true := by
    rw [hs2]
    simp [pfDue]
  have hpf : process_frame A s t true ppg rand =
      pfCompute A (pfAppend (pfTransition s t) t ppg) t rand := by
    unfold process_frame
    rw [if_neg (by simp)]
    rw [if_neg (by simp [hcst])]
    rw [if_pos (by rw [hs2]), if_pos hdue]
  obtain ⟨⟨v, hv⟩, hlut, hds2, hds1⟩ :=
    pfCompute_result A (pfAppend (pfTransition s t) t ppg) t rand
  rw [hpf]
  refine ⟨?_, ?_, hlut, ⟨v, hv⟩⟩
  · rw [hds1, hs2]
  · rw [hds2, hs2]

/-- C6: a `process_frame` call in `counting` whose elapsed time has reached
the countdown duration transitions to `calculating` and performs the first
heart-rate computation in that same call: the result and the state both read
`calculating`, the update clock is stamped with this call's time (not left
for a later interval), and a heart-rate value is produced now. -/
theorem countdown_completion_immediate_compute (A : SignalAnalysis)
    (s : PPGState) (t ppg rand cst : ℚ)
    (hstate : s.detection_state = "counting")
    (hcst : s.countdown_start_time = some cst)
    (helapsed : s.countdown_duration ≤ t - cst) :
    (process_frame A s t true ppg rand).1.detection_state = "calculating" ∧
    (process_frame A s t true ppg rand).2.detection_state = "calculating" ∧
    (process_frame A s t true ppg rand).2.last_update_time = some t ∧
    ∃ v, (process_frame A s t true ppg rand).1.heart_rate = some v :=
  process_frame_counting_complete A s t ppg rand cst hstate hcst helapsed

/-- Detector state in `counting` with the countdown started at time 0. -/
def sC6 : PPGState :=
  { initState 3 1 40 120 with detection_state := "counting"
                              countdown_start_time := some 0 }

/-- Witness for C6: countdown started at 0, tick at t = 3 (= the default 3 s
countdown). -/
theorem countdown_completion_immediate_compute_witness :
    (process_frame Aconst sC6 3 true 50 70).1.detection_state =
      "calculating" ∧
    (process_frame Aconst sC6 3 true 50 70).2.detection_state =
      "calculating" ∧
    (process_frame Aconst sC6 3 true 50 70).2.last_update_time = some 3 ∧
    ∃ v, (process_frame Aconst sC6 3 true 50 70).1.heart_rate = some v :=
  countdown_completion_immediate_compute Aconst sC6 3 50 70 0 rfl rfl
    (by norm_num [sC6, initState])

/-- The running-maximum fold used for `np.argmax` stays inside the candidate
list. -/
theorem foldl_peak_mem (b : ℚ × ℚ) (bs : List (ℚ × ℚ)) :
    bs.foldl (fun best x => if best.2 < x.2 then x else best) b ∈ b :: bs := by
  induction bs generalizing b with
  | nil => exact List.mem_singleton.mpr rfl
  | cons x xs ih =>
    have h := ih (if b.2 < x.2 then x else b)
    rcases List.mem_cons.mp h with h1 | h1
    · rw [List.foldl_cons, h1]
      by_cases hb : b.2 < x.2
      · simp [hb]
      · simp [hb]
    · rw [List.foldl_cons]
      exact List.mem_cons_of_mem _ (List.mem_cons_of_mem _ h1)

/-- The running-maximum fold dominates every candidate's magnitude. -/
theorem foldl_peak_ge (b : ℚ × ℚ) (bs : List (ℚ × ℚ)) :
    ∀ q ∈ b :: bs,
      q.2 ≤ (bs.foldl (fun best x => if best.2 < x.2 then x else best) b).2 := by
  induction bs generalizing b with
  | nil =>
    intro q hq
    rw [List.mem_singleton.mp hq]
    exact le_refl _
  | cons x xs ih =>
    intro q hq
    rw [List.foldl_cons]
    have hstepb : b.2 ≤ (if b.2 < x.2 then x else b).2 := by
      by_cases hb : b.2 < x.2
      · simp only [if_pos hb]
        exact le_of_lt hb
      · simp only [if_neg hb]
        exact le_refl _
    have hstepx : x.2 ≤ (if b.2 < x.2 then x else b).2 := by
      by_cases hb : b.2 < x.2
      · simp only [if_pos hb]
        exact le_refl _
      · simp only [if_neg hb]
        exact le_of_not_lt hb
    have hbase : (if b.2 < x.2 then x else b).2 ≤
        (xs.foldl (fun best y => if best.2 < y.2 then y else best)
          (if b.2 < x.2 then x else b)).2 :=
      ih _ _ (List.mem_cons_self _ _)
    rcases List.mem_cons.mp hq with h1 | h1
    · rw [h1]
      exact le_trans hstepb hbase
    · rcases List.mem_cons.mp h1 with h2 | h2
      · rw [h2]
        exact le_trans hstepx hbase
      · exact ih _ q (List.mem_cons_of_mem _ h2)

/-- C7: the frequency-domain estimate of `_fft_heart_rate_analysis` considers
only bins whose frequency maps into the configured BPM range: it returns null
when no bin is in range, and when it returns a value, that value is the BPM of
an in-range bin of maximal magnitude whose magnitude exceeds twice the mean
in-band magnitude. -/
theorem fft_selection_in_band_peak (minHR maxHR : ℚ) (bins : List (ℚ × ℚ)) :
    (bins.filter (fun b => decide (minHR ≤ b.1 * 60 ∧ b.1 * 60 ≤ maxHR)) = [] →
      fft_heart_rate_analysis minHR maxHR bins = none) ∧
    (∀ r, fft_heart_rate_analysis minHR maxHR bins = some r →
      ∃ p ∈ bins.filter (fun b => decide (minHR ≤ b.1 * 60 ∧ b.1 * 60 ≤ maxHR)),
        r = p.1 * 60 ∧ minHR ≤ r ∧ r ≤ maxHR ∧
        (∀ q ∈ bins.filter
            (fun b => decide (minHR ≤ b.1 * 60 ∧ b.1 * 60 ≤ maxHR)),
          q.2 ≤ p.2) ∧
        p.2 > 2 *
          (((bins.filter
              (fun b => decide (minHR ≤ b.1 * 60 ∧ b.1 * 60 ≤ maxHR))).map
            Prod.snd).sum /
           (bins.filter
              (fun b => decide (minHR ≤ b.1 * 60 ∧ b.1 * 60 ≤ maxHR))).length)) := by
  constructor
  · intro h
    unfold fft_heart_rate_analysis
    rw [h]
  · intro r hr
    unfold fft_heart_rate_analysis at hr
    cases hv : bins.filter
        (fun b => decide (minHR ≤ b.1 * 60 ∧ b.1 * 60 ≤ maxHR)) with
    | nil => rw [hv] at hr; exact absurd hr (by simp)
    | cons b bs =>
      rw [hv] at hr
      simp only at hr
      split_ifs at hr with hpk
      · have hr2 : (bs.foldl (fun best x => if best.2 < x.2 then x else best)
            b).1 * 60 = r := Option.some.injEq _ _ ▸ hr
        have hmem : bs.foldl (fun best x => if best.2 < x.2 then x else best)
            b ∈ b :: bs := foldl_peak_mem b bs
        have hmemf : bs.foldl (fun best x => if best.2 < x.2 then x else best)
            b ∈ bins.filter
              (fun b => decide (minHR ≤ b.1 * 60 ∧ b.1 * 60 ≤ maxHR)) := by
          rw [hv]; exact hmem
        have hband := List.of_mem_filter hmemf
        simp only [decide_eq_true_eq] at hband
        refine ⟨_, hmem, hr2.symm, ?_, ?_, ?_, ?_⟩
        · rw [← hr2]; exact hband.1
        · rw [← hr2]; exact hband.2
        · intro q hq
          exact foldl_peak_ge b bs q hq
        · exact hpk

/-- Witness for C7 at a concrete spectrum: bins at 75, 120 and 90 BPM with
magnitudes 10, 2 and 0 — the 75 BPM bin wins and passes the 2x-mean test. -/
theorem fft_selection_in_band_peak_witness :
    fft_heart_rate_analysis 40 120 [(5/4, 10), (2, 2), (3/2, 0)] = some 75 ∧
    ∃ p ∈ ([(5/4, 10), (2, 2), (3/2, 0)] : List (ℚ × ℚ)).filter
        (fun b => decide ((40:ℚ) ≤ b.1 * 60 ∧ b.1 * 60 ≤ 120)),
      (75:ℚ) = p.1 * 60 ∧ (40:ℚ) ≤ 75 ∧ (75:ℚ) ≤ 120 ∧
      (∀ q ∈ ([(5/4, 10), (2, 2), (3/2, 0)] : List (ℚ × ℚ)).filter
          (fun b => decide ((40:ℚ) ≤ b.1 * 60 ∧ b.1 * 60 ≤ 120)),
        q.2 ≤ p.2) ∧
      p.2 > 2 *
        (((([(5/4, 10), (2, 2), (3/2, 0)] : List (ℚ × ℚ)).filter
            (fun b => decide ((40:ℚ) ≤ b.1 * 60 ∧ b.1 * 60 ≤ 120))).map
          Prod.snd).sum /
         (([(5/4, 10), (2, 2), (3/2, 0)] : List (ℚ × ℚ)).filter
            (fun b => decide ((40:ℚ) ≤ b.1 * 60 ∧ b.1 * 60 ≤ 120))).length) :=
  ⟨by norm_num [fft_heart_rate_analysis],
   (fft_selection_in_band_peak 40 120 [(5/4, 10), (2, 2), (3/2, 0)]).2 75
     (by norm_num [fft_heart_rate_analysis])⟩

/-- Sum of a constant list. -/
theorem list_sum_const {l : List ℚ} {c : ℚ} (h : ∀ x ∈ l, x = c) :
    l.sum = l.length * c := by
  induction l with
  | nil => simp
  | cons a xs ih =>
    have ha : a = c := h a (List.mem_cons_self _ _)
    have hxs : xs.sum = xs.length * c :=
      ih (fun x hx => h x (List.mem_cons_of_mem _ hx))
    rw [List.sum_cons, ha, hxs, List.length_cons]
    push_cast
    ring

/-- Mean of a non-empty constant list. -/
theorem signalMean_const {l : List ℚ} {c : ℚ} (h : ∀ x ∈ l, x = c)
    (hne : l ≠ []) : signalMean l = c := by
  have hlen : (l.length : ℚ) ≠ 0 :=
    Nat.cast_ne_zero.mpr (Nat.pos_iff_ne_zero.mp (List.length_pos.mpr hne))
  unfold signalMean
  rw [list_sum_const h, mul_comm, mul_div_assoc, div_self hlen, mul_one]

/-- A non-empty constant list has zero variance. -/
theorem signalVariance_const {l : List ℚ} {c : ℚ} (h : ∀ x ∈ l, x = c)
    (hne : l ≠ []) : signalVariance l = 0 := by
  have hm := signalMean_const h hne
  have hz : ∀ y ∈ l.map (fun x => (x - signalMean l) ^ 2), y = 0 := by
    intro y hy
    obtain ⟨x, hx, rfl⟩ := List.mem_map.mp hy
    rw [hm, h x hx]
    ring
  unfold signalVariance
  rw [List.sum_eq_zero hz, zero_div]

/-- Length of a bounded-deque append. -/
theorem dequeAppend_length (n : ℕ) (xs : List ℚ) (x : ℚ) :
    (dequeAppend n xs x).length = min (xs.length + 1) n := by
  simp [dequeAppend]
  omega

/-- Membership after a bounded-deque append. -/
theorem dequeAppend_mem {n : ℕ} {xs : List ℚ} {x y : ℚ}
    (h : y ∈ dequeAppend n xs x) : y ∈ xs ∨ y = x := by
  unfold dequeAppend at h
  have h2 := List.drop_subset _ _ h
  rcases List.mem_append.mp h2 with h3 | h3
  · exact Or.inl h3
  · exact Or.inr (List.mem_singleton.mp h3)

/-- The quality gate of `calculate_heart_rate_from_signals`: ≥ 10 samples all
equal to the same constant yield a null heart rate (quality 0.1 < 0.3),
whatever the downstream analysis oracles would say, and the state is left
unchanged. -/
theorem calculate_const_buffer_none (A : SignalAnalysis) (s : PPGState)
    (c : ℚ) (hconst : ∀ x ∈ s.signal_buffer, x = c)
    (hlen : 10 ≤ s.signal_buffer.length) :
    calculate_heart_rate_from_signals A s = (none, s) := by
  have hne : s.signal_buffer ≠ [] := by
    intro hE
    rw [hE] at hlen
    simp at hlen
  have hvar : signalVariance s.signal_buffer = 0 := signalVariance_const hconst hne
  unfold calculate_heart_rate_from_signals
  rw [if_neg (by omega)]
  rw [if_pos]
  unfold assess_signal_quality
  rw [if_neg (by omega), if_pos (by rw [hvar]; norm_num)]
  norm_num

/-- `pfTransition` is the identity in `calculating`. -/
theorem pfTransition_calculating {s : PPGState} (t : ℚ)
    (h : s.detection_state = "calculating") : pfTransition s t = s := by
  simp [pfTransition, h]

/-- The tick output of a due recompute in `calculating` is always a
(non-null) stored value. -/
theorem calculating_due_tick_some (A : SignalAnalysis) (s : PPGState)
    (t ppg rand : ℚ) (hstate : s.detection_state = "calculating")
    (hdue : s.last_update_time = none ∨
      ∃ lut, s.last_update_time = some lut ∧ s.update_interval ≤ t - lut) :
    process_frame A s t true ppg rand =
      pfCompute A (pfAppend s t ppg) t rand ∧
    ∃ v, (process_frame A s t true ppg rand).1.heart_rate = some v := by
  have hguard : ¬(s.detection_state = "counting" ∧
      s.countdown_start_time = none) := by
    simp [hstate]
  have hdue2 : pfDue (pfAppend s t ppg) t = true := by
    unfold pfDue pfAppend
    rcases hdue with h | ⟨lut, hlut, hle⟩
    · simp [h]
    · simp [hlut]
      exact hle
  have hpf : process_frame A s t true ppg rand =
      pfCompute A (pfAppend s t ppg) t rand := by
    unfold process_frame
    rw [if_neg (by simp), if_neg hguard, pfTransition_calculating t hstate,
      if_pos (by exact hstate), if_pos hdue2]
  exact ⟨hpf, by rw [hpf]; exact ⟨_, rfl⟩⟩

/-- C2 (amended): in `calculating`, a recompute tick over a buffer whose ≥ 10
samples are all one constant makes `calculate_heart_rate_from_signals` report
null (the zero-variance quality gate, with no exception), but `process_frame`
does not surface the null: it substitutes the history mean or the pseudorandom
65–74 default, smooths it, and outputs a non-null number. -/
theorem constant_buffer_null_calc_substituted_output (A : SignalAnalysis)
    (s : PPGState) (t ppg rand c : ℚ)
    (hconst : ∀ x ∈ s.signal_buffer, x = c) (hppg : ppg = c)
    (hlen : 9 ≤ s.signal_buffer.length)
    (hstate : s.detection_state = "calculating")
    (hdue : s.last_update_time = none ∨
      ∃ lut, s.last_update_time = some lut ∧ s.update_interval ≤ t - lut) :
    calculate_heart_rate_from_signals A (pfAppend s t ppg) =
      (none, pfAppend s t ppg) ∧
    ∃ v, (process_frame A s t true ppg rand).1.heart_rate = some v := by
  have hconst2 : ∀ x ∈ (pfAppend s t ppg).signal_buffer, x = c := by
    intro x hx
    rcases dequeAppend_mem hx with h | h
    · exact hconst x h
    · rw [h, hppg]
  have hlen2 : 10 ≤ (pfAppend s t ppg).signal_buffer.length := by
    show 10 ≤ (dequeAppend 100 s.signal_buffer ppg).length
    rw [dequeAppend_length]
    omega
  exact ⟨calculate_const_buffer_none A _ c hconst2 hlen2,
    (calculating_due_tick_some A s t ppg rand hstate hdue).2⟩

/-- Detector state in `calculating` with a constant 9-sample buffer,
one tick before a due recompute. -/
def sC2 : PPGState :=
  { initState 3 1 40 120 with
      detection_state := "calculating"
      countdown_start_time := some 0
      last_update_time := some 0
      signal_buffer := List.replicate 9 50 }

/-- Witness for C2 (amended) at the concrete constant-buffer state. -/
theorem constant_buffer_null_calc_substituted_output_witness :
    calculate_heart_rate_from_signals Aconst (pfAppend sC2 1 50) =
      (none, pfAppend sC2 1 50) ∧
    ∃ v, (process_frame Aconst sC2 1 true 50 70).1.heart_rate = some v :=
  constant_buffer_null_calc_substituted_output Aconst sC2 1 50 70 50
    (by intro x hx; simpa using List.eq_of_mem_replicate hx)
    rfl (by simp [sC2]) rfl (Or.inr ⟨0, rfl, by norm_num [sC2, initState]⟩)

/-- C2 (counterexample): at the concrete constant-buffer state, the inner
computation reports null, yet the `process_frame` tick outputs 70 BPM (the
substituted pseudorandom default), refuting the claim that the tick's
heart-rate output is null. -/
theorem constant_buffer_output_not_null_cex :
    (calculate_heart_rate_from_signals Aconst (pfAppend sC2 1 50)).1 = none ∧
    (process_frame Aconst sC2 1 true 50 70).1.heart_rate = some 70 ∧
    (process_frame Aconst sC2 1 true 50 70).1.heart_rate ≠ none := by
  have hconst : ∀ x ∈ (pfAppend sC2 1 50).signal_buffer, x = 50 := by
    intro x hx
    rcases dequeAppend_mem hx with h | h
    · exact List.eq_of_mem_replicate h
    · exact h
  have hlen : 10 ≤ (pfAppend sC2 1 50).signal_buffer.length := by
    show 10 ≤ (dequeAppend 100 (List.replicate 9 50) 50).length
    rw [dequeAppend_length]
    simp
  have hcalc := calculate_const_buffer_none Aconst (pfAppend sC2 1 50) 50
    hconst hlen
  have hpf : process_frame Aconst sC2 1 true 50 70 =
      pfCompute Aconst (pfAppend sC2 1 50) 1 70 :=
    (calculating_due_tick_some Aconst sC2 1 50 70 rfl
      (Or.inr ⟨0, rfl, by norm_num [sC2, initState]⟩)).1
  have hout : (pfCompute Aconst (pfAppend sC2 1 50) 1 70).1.heart_rate =
      some 70 := by
    simp only [pfCompute]
    rw [hcalc]
    norm_num [smooth_heart_rate, limitChange, clampRange, dequeAppend,
      weightedAvg3, pyInt, pfAppend, sC2, initState]
  refine ⟨by rw [hcalc], by rw [hpf, hout], ?_⟩
  rw [hpf, hout]
  simp

/-- Detector state with previous estimate 70 BPM and a stale history, as left
behind by earlier face-loss episodes (face loss keeps the history and erases
`current_heart_rate`, so later estimates re-enter it unconstrained). -/
def sC3 : PPGState :=
  { initState 3 1 40 120 with
      current_heart_rate := some 70
      heart_rate_history := [40, 120, 53] }

/-- C3 (counterexample): with previous estimate 70 BPM, smoothing a raw 95 BPM
returns 78.4 — outside [63, 77.5] — because the returned value is the weighted
average over the last three history entries, not the clamped value. -/
theorem smoothing_bound_cex :
    (smooth_heart_rate sC3 95).1 = 392/5 ∧
    ¬(63 ≤ (smooth_heart_rate sC3 95).1 ∧
      (smooth_heart_rate sC3 95).1 ≤ 155/2) := by
  have h : (smooth_heart_rate sC3 95).1 = 392/5 := by
    norm_num [smooth_heart_rate, limitChange, clampRange, dequeAppend,
      weightedAvg3, sC3, initState]
  refine ⟨h, ?_⟩
  rw [h]
  norm_num

/-- The last three entries after a bounded-deque append are the previous last
two entries followed by the appended value. -/
theorem dequeAppend_last_three (H : List ℚ) (x : ℚ) (h2 : 2 ≤ H.length) :
    (dequeAppend 10 H x).drop ((dequeAppend 10 H x).length - 3) =
      H.drop (H.length - 2) ++ [x] := by
  unfold dequeAppend
  simp only [List.length_drop, List.length_append, List.length_singleton]
  rw [List.drop_drop]
  have hidx : H.length + 1 - 10 + (H.length + 1 - (H.length + 1 - 10) - 3) =
      H.length - 2 := by omega
  rw [hidx]
  rw [List.drop_append_of_le_length (by omega)]

/-- C3 (amended): with previous estimate 70 BPM and default range, smoothing a
raw 95 BPM clamps the new entry to 77 = 70 + max(5, 10 % of 70) and appends it
to the bounded history; the returned value is that clamped 77 while the
history holds fewer than 3 entries, and otherwise the 0.2/0.3/0.5
recency-weighted average of the last three entries — which lies in
[63, 77.5] provided the two preceding history entries do (without that
proviso the average can leave the interval, e.g. 78.4). -/
theorem smooth_70_95_bounded (s : PPGState)
    (hchr : s.current_heart_rate = some 70)
    (hmin : s.min_heart_rate = 40) (hmax : s.max_heart_rate = 120)
    (hrecent : ∀ h ∈ s.heart_rate_history.drop
        (s.heart_rate_history.length - 2), 63 ≤ h ∧ h ≤ 155/2) :
    (smooth_heart_rate s 95).2.heart_rate_history =
      dequeAppend 10 s.heart_rate_history 77 ∧
    63 ≤ (smooth_heart_rate s 95).1 ∧ (smooth_heart_rate s 95).1 ≤ 155/2 := by
  have hc : limitChange s.current_heart_rate
      (clampRange (s.min_heart_rate : ℚ) (s.max_heart_rate : ℚ) 95) = 77 := by
    rw [hchr, hmin, hmax]
    norm_num [limitChange, clampRange]
  constructor
  · simp only [smooth_heart_rate]
    rw [hc]
  · simp only [smooth_heart_rate]
    rw [hc]
    rcases Nat.lt_or_ge s.heart_rate_history.length 2 with hn | hn
    · rw [if_neg (by rw [dequeAppend_length]; omega)]
      norm_num
    · rw [if_pos (by rw [dequeAppend_length]; omega)]
      rw [dequeAppend_last_three _ _ hn]
      have hlen2 : (s.heart_rate_history.drop
          (s.heart_rate_history.length - 2)).length = 2 := by
        rw [List.length_drop]
        omega
      obtain ⟨a, b, hab⟩ := List.length_eq_two.mp hlen2
      have ha := hrecent a (by rw [hab]; exact List.mem_cons_self _ _)
      have hb := hrecent b (by rw [hab]; simp)
      rw [hab]
      have hwa : weightedAvg3 ([a, b] ++ [77]) =
          (1/5) * a + (3/10) * b + (1/2) * 77 := rfl
      rw [hwa]
      constructor
      · linarith [ha.1, hb.1]
      · linarith [ha.2, hb.2]

/-- Detector state with previous estimate 70 BPM and a well-behaved history. -/
def sC3w : PPGState :=
  { initState 3 1 40 120 with
      current_heart_rate := some 70
      heart_rate_history := [70, 70, 70] }

/-- Witness for C3 (amended) at a concrete well-behaved state. -/
theorem smooth_70_95_bounded_witness :
    (smooth_heart_rate sC3w 95).2.heart_rate_history =
      dequeAppend 10 sC3w.heart_rate_history 77 ∧
    63 ≤ (smooth_heart_rate sC3w 95).1 ∧
    (smooth_heart_rate sC3w 95).1 ≤ 155/2 :=
  smooth_70_95_bounded sC3w rfl rfl rfl (by norm_num [sC3w, initState])

/-- The range clamp lands in the configured range. -/
theorem clampRange_mem (lo hi x : ℚ) (h : lo ≤ hi) :
    lo ≤ clampRange lo hi x ∧ clampRange lo hi x ≤ hi :=
  ⟨le_max_left _ _, max_le h (min_le_left _ _)⟩

/-- Change limiting keeps an in-range value in range when the previous
estimate is in range. -/
theorem limitChange_mem (chr : Option ℚ) (x lo hi : ℚ)
    (hx : lo ≤ x ∧ x ≤ hi)
    (hchr : ∀ c, chr = some c → lo ≤ c ∧ c ≤ hi) :
    lo ≤ limitChange chr x ∧ limitChange chr x ≤ hi := by
  cases chr with
  | none => exact hx
  | some c =>
    obtain ⟨hc1, hc2⟩ := hchr c rfl
    have hmc : (5:ℚ) ≤ max 5 (c * (1/10)) := le_max_left _ _
    simp only [limitChange]
    split_ifs with h1 h2
    · constructor
      · linarith
      · linarith [hx.2]
    · constructor
      · linarith [hx.1]
      · linarith
    · exact hx

/-- Python `int()` keeps a value between two integer bounds between them. -/
theorem pyInt_mem (q : ℚ) (lo hi : ℤ) (h1 : (lo:ℚ) ≤ q) (h2 : q ≤ (hi:ℚ)) :
    (lo:ℚ) ≤ pyInt q ∧ pyInt q ≤ (hi:ℚ) := by
  unfold pyInt
  split_ifs with hq
  · constructor
    · exact_mod_cast Int.le_floor.mpr h1
    · exact le_trans (Int.floor_le q) h2
  · constructor
    · exact le_trans h1 (Int.le_ceil q)
    · exact_mod_cast Int.ceil_le.mpr h2

/-- The recency-weighted 3-point average of in-range values is in range. -/
theorem weightedAvg3_mem (a b c lo hi : ℚ)
    (ha : lo ≤ a ∧ a ≤ hi) (hb : lo ≤ b ∧ b ≤ hi) (hc : lo ≤ c ∧ c ≤ hi) :
    lo ≤ weightedAvg3 [a, b, c] ∧ weightedAvg3 [a, b, c] ≤ hi := by
  have h : weightedAvg3 [a, b, c] = (1/5) * a + (3/10) * b + (1/2) * c := rfl
  rw [h]
  constructor
  · linarith [ha.1, hb.1, hc.1]
  · linarith [ha.2, hb.2, hc.2]

/-- The detector's range invariant: the configured range is sane, every
history entry is in range, and the stored estimate (when present) is in
range. -/
def hrInv (s : PPGState) : Prop :=
  s.min_heart_rate ≤ s.max_heart_rate ∧
  (∀ h ∈ s.heart_rate_history,
    (s.min_heart_rate:ℚ) ≤ h ∧ h ≤ (s.max_heart_rate:ℚ)) ∧
  (∀ c, s.current_heart_rate = some c →
    (s.min_heart_rate:ℚ) ≤ c ∧ c ≤ (s.max_heart_rate:ℚ))

/-- The invariant moves along field-wise equal states. -/
theorem hrInv_transfer {s s' : PPGState}
    (h1 : s'.min_heart_rate = s.min_heart_rate)
    (h2 : s'.max_heart_rate = s.max_heart_rate)
    (h3 : s'.heart_rate_history = s.heart_rate_history)
    (h4 : s'.current_heart_rate = s.current_heart_rate)
    (hinv : hrInv s) : hrInv s' := by
  unfold hrInv at *
  rw [h1, h2, h3, h4]
  exact hinv

/-- `_smooth_heart_rate` returns an in-range value and preserves the range
invariant; the other fields are untouched. -/
theorem smooth_heart_rate_inv (s : PPGState) (hr0 : ℚ) (hinv : hrInv s) :
    ((s.min_heart_rate:ℚ) ≤ (smooth_heart_rate s hr0).1 ∧
      (smooth_heart_rate s hr0).1 ≤ (s.max_heart_rate:ℚ)) ∧
    hrInv (smooth_heart_rate s hr0).2 := by
  obtain ⟨hlh, hhist, hchr⟩ := hinv
  have hlhq : ((s.min_heart_rate:ℤ):ℚ) ≤ ((s.max_heart_rate:ℤ):ℚ) := by
    exact_mod_cast hlh
  have hc := limitChange_mem s.current_heart_rate _ _ _
    (clampRange_mem _ _ hr0 hlhq) hchr
  have hhist2 : ∀ h ∈ dequeAppend 10 s.heart_rate_history
      (limitChange s.current_heart_rate
        (clampRange (s.min_heart_rate:ℚ) (s.max_heart_rate:ℚ) hr0)),
      (s.min_heart_rate:ℚ) ≤ h ∧ h ≤ (s.max_heart_rate:ℚ) := by
    intro h hh
    rcases dequeAppend_mem hh with h1 | h1
    · exact hhist h h1
    · rw [h1]
      exact hc
  constructor
  · simp only [smooth_heart_rate]
    split_ifs with h3
    · have hlen3 : ((dequeAppend 10 s.heart_rate_history
          (limitChange s.current_heart_rate
            (clampRange (s.min_heart_rate:ℚ) (s.max_heart_rate:ℚ) hr0))).drop
          ((dequeAppend 10 s.heart_rate_history
            (limitChange s.current_heart_rate
              (clampRange (s.min_heart_rate:ℚ) (s.max_heart_rate:ℚ)
                hr0))).length - 3)).length = 3 := by
        rw [List.length_drop]
        omega
      obtain ⟨a, b, c, habc⟩ := List.length_eq_three.mp hlen3
      have hsub := List.drop_subset
        ((dequeAppend 10 s.heart_rate_history
          (limitChange s.current_heart_rate
            (clampRange (s.min_heart_rate:ℚ) (s.max_heart_rate:ℚ)
              hr0))).length - 3)
        (dequeAppend 10 s.heart_rate_history
          (limitChange s.current_heart_rate
            (clampRange (s.min_heart_rate:ℚ) (s.max_heart_rate:ℚ) hr0)))
      rw [habc] at hsub
      rw [habc]
      exact weightedAvg3_mem a b c _ _
        (hhist2 a (hsub (List.mem_cons_self _ _)))
        (hhist2 b (hsub (by simp)))
        (hhist2 c (hsub (by simp)))
    · exact hc
  · exact ⟨hlh, hhist2, hchr⟩

/-- `calculate_heart_rate_from_signals` preserves the range invariant. -/
theorem calculate_inv (A : SignalAnalysis) (s : PPGState) (hinv : hrInv s) :
    hrInv (calculate_heart_rate_from_signals A s).2 := by
  unfold calculate_heart_rate_from_signals
  split_ifs with h1 h2
  · exact hinv
  · exact hinv
  · cases A.fft s.signal_buffer with
    | some hr => exact (smooth_heart_rate_inv s hr hinv).2
    | none =>
      cases A.autocorr s.signal_buffer with
      | some hr => exact hinv
      | none =>
        cases A.fallback s.signal_buffer with
        | some hr => exact hinv
        | none => exact hinv

/-- The state-machine transition does not touch range, history or stored
estimate. -/
theorem pfTransition_fields (s : PPGState) (t : ℚ) :
    (pfTransition s t).min_heart_rate = s.min_heart_rate ∧
    (pfTransition s t).max_heart_rate = s.max_heart_rate ∧
    (pfTransition s t).heart_rate_history = s.heart_rate_history ∧
    (pfTransition s t).current_heart_rate = s.current_heart_rate := by
  unfold pfTransition
  split_ifs with h1 h2
  · exact ⟨rfl, rfl, rfl, rfl⟩
  · cases s.countdown_start_time with
    | some cst =>
      dsimp only
      split_ifs with h3
      · exact ⟨rfl, rfl, rfl, rfl⟩
      · exact ⟨rfl, rfl, rfl, rfl⟩
    | none => exact ⟨rfl, rfl, rfl, rfl⟩
  · exact ⟨rfl, rfl, rfl, rfl⟩

/-- The buffer append does not touch range, history or stored estimate. -/
theorem pfAppend_fields (s : PPGState) (t ppg : ℚ) :
    (pfAppend s t ppg).min_heart_rate = s.min_heart_rate ∧
    (pfAppend s t ppg).max_heart_rate = s.max_heart_rate ∧
    (pfAppend s t ppg).heart_rate_history = s.heart_rate_history ∧
    (pfAppend s t ppg).current_heart_rate = s.current_heart_rate :=
  ⟨rfl, rfl, rfl, rfl⟩

/-- The recompute branch preserves the range invariant, keeps the configured
range, and reports exactly the stored estimate. -/
theorem pfCompute_inv (A : SignalAnalysis) (s : PPGState) (t rand : ℚ)
    (hinv : hrInv s) :
    hrInv (pfCompute A s t rand).2 ∧
    (pfCompute A s t rand).2.min_heart_rate = s.min_heart_rate ∧
    (pfCompute A s t rand).2.max_heart_rate = s.max_heart_rate ∧
    (pfCompute A s t rand).1.heart_rate =
      (pfCompute A s t rand).2.current_heart_rate := by
  have hra := calculate_inv A s hinv
  have hf := calculate_preserves_fields A s
  refine ⟨⟨hra.1, ?_, ?_⟩, hf.2.2.2.2.1, hf.2.2.2.2.2.1, rfl⟩
  · exact (smooth_heart_rate_inv _ _ hra).2.2.1
  · intro c hc
    injection hc with hc2
    rw [← hc2]
    exact pyInt_mem _ _ _ (smooth_heart_rate_inv _ _ hra).1.1
      (smooth_heart_rate_inv _ _ hra).1.2

/-- One `process_frame` call preserves the range invariant, keeps the
configured range, and can only output an in-range heart rate. -/
theorem process_frame_inv (A : SignalAnalysis) (s : PPGState)
    (t ppg rand : ℚ) (face : Bool) (hinv : hrInv s) :
    hrInv (process_frame A s t face ppg rand).2 ∧
    (process_frame A s t face ppg rand).2.min_heart_rate = s.min_heart_rate ∧
    (process_frame A s t face ppg rand).2.max_heart_rate = s.max_heart_rate ∧
    (∀ v, (process_frame A s t face ppg rand).1.heart_rate = some v →
      (s.min_heart_rate:ℚ) ≤ v ∧ v ≤ (s.max_heart_rate:ℚ)) := by
  have hs2fields := pfTransition_fields s t
  have hapf := pfAppend_fields (pfTransition s t) t ppg
  have hs2inv : hrInv (pfAppend (pfTransition s t) t ppg) :=
    hrInv_transfer (hapf.1.trans hs2fields.1) (hapf.2.1.trans hs2fields.2.1)
      (hapf.2.2.1.trans hs2fields.2.2.1) (hapf.2.2.2.trans hs2fields.2.2.2)
      hinv
  have hmins : (pfAppend (pfTransition s t) t ppg).min_heart_rate =
      s.min_heart_rate := hapf.1.trans hs2fields.1
  have hmaxs : (pfAppend (pfTransition s t) t ppg).max_heart_rate =
      s.max_heart_rate := hapf.2.1.trans hs2fields.2.1
  simp only [process_frame]
  split_ifs with hface hguard hcalc hdue
  · refine ⟨⟨hinv.1, hinv.2.1, ?_⟩, rfl, rfl, ?_⟩
    · intro c hc
      exact absurd hc (by simp [pfFaceLost])
    · intro v hv
      exact absurd hv (by simp [pfFaceLost])
  · refine ⟨hinv, rfl, rfl, ?_⟩
    intro v hv
    exact absurd hv (by simp [errorResult])
  · obtain ⟨hin, hmin, hmax, hout⟩ :=
      pfCompute_inv A (pfAppend (pfTransition s t) t ppg) t rand hs2inv
    refine ⟨hin, hmin.trans hmins, hmax.trans hmaxs, ?_⟩
    intro v hv
    rw [hout] at hv
    have hb := hin.2.2 v hv
    rw [hmin, hmax, hmins, hmaxs] at hb
    exact hb
  · refine ⟨hs2inv, hmins, hmaxs, ?_⟩
    intro v hv
    have hb := hs2inv.2.2 v hv
    rw [hmins, hmaxs] at hb
    exact hb
  · refine ⟨hs2inv, hmins, hmaxs, ?_⟩
    intro v hv
    exact absurd hv (by simp)

/-- Running the detector from any state satisfying the range invariant only
ever outputs in-range heart rates. -/
theorem runDetector_outputs_in_range (A : SignalAnalysis)
    (inputs : List PFInput) :
    ∀ (s : PPGState), hrInv s →
      ∀ r ∈ (runDetector A s inputs).1, ∀ v, r.heart_rate = some v →
        (s.min_heart_rate:ℚ) ≤ v ∧ v ≤ (s.max_heart_rate:ℚ) := by
  induction inputs with
  | nil =>
    intro s hinv r hr
    simp [runDetector] at hr
  | cons i is ih =>
    intro s hinv r hr v hv
    obtain ⟨hin, hmin, hmax, hout⟩ :=
      process_frame_inv A s i.t i.ppg i.rand i.face hinv
    simp only [runDetector] at hr
    rcases List.mem_cons.mp hr with h1 | h1
    · exact hout v (h1 ▸ hv)
    · have hb := ih _ hin r h1 v hv
      rw [hmin, hmax] at hb
      exact hb

/-- C8: starting from a freshly constructed detector with any sane configured
range, every non-null heart rate that any sequence of `process_frame` calls
outputs lies within the configured `[min_heart_rate, max_heart_rate]` range,
whatever raw estimates the analysis kernels produce. -/
theorem detector_outputs_clamped (A : SignalAnalysis) (cd ui : ℚ)
    (minHR maxHR : ℤ) (h : minHR ≤ maxHR) (inputs : List PFInput) :
    ∀ r ∈ (runDetector A (initState cd ui minHR maxHR) inputs).1,
      ∀ v, r.heart_rate = some v → (minHR:ℚ) ≤ v ∧ v ≤ (maxHR:ℚ) := by
  have hinv : hrInv (initState cd ui minHR maxHR) := by
    refine ⟨h, ?_, ?_⟩
    · intro x hx
      exact absurd hx (by simp [initState])
    · intro c hc
      exact absurd hc (by simp [initState])
  exact runDetector_outputs_in_range A inputs _ hinv

/-- The second tick's result in the concrete C8 witness run. -/
def rC8 : FrameResult :=
  { heart_rate := some 70
    face_detected := true
    detection_state := "calculating"
    signal_length := 2 }

/-- Witness for C8 with the default configuration: a concrete two-tick run
(face appears at t = 0, next tick at t = 4) yields a non-null heart rate on
its second tick, and the theorem instance bounds it by [40, 120]. -/
theorem detector_outputs_clamped_witness :
    ∃ r ∈ (runDetector Aconst (initState 3 1 40 120)
        [⟨0, true, 50, 70⟩, ⟨4, true, 50, 70⟩]).1,
      ∃ v, r.heart_rate = some v ∧ ((40:ℤ):ℚ) ≤ v ∧ v ≤ ((120:ℤ):ℚ) := by
  obtain ⟨_, _, _, v, hv⟩ := process_frame_counting_complete Aconst
    ((process_frame Aconst (initState 3 1 40 120) 0 true 50 70).2) 4 50 70 0
    rfl rfl (by show (3:ℚ) ≤ 4 - 0; norm_num)
  refine ⟨_, List.mem_cons_of_mem _ (List.mem_cons_self _ _), v, hv, ?_⟩
  exact detector_outputs_clamped Aconst 3 1 40 120 (by decide)
    [⟨0, true, 50, 70⟩, ⟨4, true, 50, 70⟩] _
    (List.mem_cons_of_mem _ (List.mem_cons_self _ _)) v hv
